import Mathlib

/-!
Verification of the `snap_fit` jigsaw-puzzle repository against its
natural-language specification.

The development shallowly embeds the parts of the code base that the
claims touch: segment shape classification and the compatibility gate
(`segment.py`, quoted verbatim in the repository's
weird-edge-shape-detection design document), the segment matcher
(the `match_` notebook), the piece matcher cache (the PieceMatcher
plan and the FastAPI scaffold's persistence code), the placement
state, the FastAPI routers (ingestion, piece/sheet/match listing),
and the synthetic-puzzle label scheme.

Machine floats are modelled by `ℚ`; the floating-point square root and
the OpenCV affine-transform estimator are abstract parameters, since
the claims under verification are about the surrounding algorithmic
structure, not about numeric rounding.
-/

namespace SnapFit

/-! ## Core enums and identity value objects -/

/-- `SegmentShape`: tab/slot classification of one boundary edge. -/
inductive SegmentShape
  | IN
  | OUT
  | EDGE
  | WEIRD
  deriving DecidableEq, Repr

/-- `EdgePos`: which of the four piece sides a segment occupies. -/
inductive EdgePos
  | TOP
  | RIGHT
  | BOTTOM
  | LEFT
  deriving DecidableEq, Repr

/-- `PieceId {sheet_id, piece_idx}` — identity of one extracted piece. -/
structure PieceId where
  sheet_id : String
  piece_idx : Nat
  deriving DecidableEq, Repr

/-- `SegmentId {piece_id, edge_pos}` — identity of one boundary edge. -/
structure SegmentId where
  piece_id : PieceId
  edge_pos : EdgePos
  deriving DecidableEq, Repr

/-! ## Shape classification (`Segment._compute_shape`)

From the classification code quoted in the weird-edge design document:
`flat_th = 20`; `out_count = (s1_xs < -flat_th).sum()`;
`in_count = (s1_xs > flat_th).sum()`; `count_th = 5`;
`is_out = out_count > count_th`; `is_in = in_count > count_th`;
then `(True, False) → OUT`, `(False, True) → IN`,
`(False, False) → EDGE`, `(True, True) → WEIRD`.
The per-point perpendicular deviations `s1_xs` are taken as the input. -/

/-- Number of deviations strictly below `-flat_th = -20`. -/
def out_count (xs : List ℚ) : Nat :=
  (xs.filter (fun x => x < -20)).length

/-- Number of deviations strictly above `flat_th = 20`. -/
def in_count (xs : List ℚ) : Nat :=
  (xs.filter (fun x => 20 < x)).length

/-- `Segment._compute_shape`, as a function of the perpendicular
deviations of the segment's points from its endpoint axis. -/
def compute_shape (xs : List ℚ) : SegmentShape :=
  let is_out := decide (5 < out_count xs)
  let is_in := decide (5 < in_count xs)
  match is_out, is_in with
  | true, false => SegmentShape.OUT
  | false, true => SegmentShape.IN
  | false, false => SegmentShape.EDGE
  | true, true => SegmentShape.WEIRD

/-! ## Compatibility gate (`Segment.is_compatible`)

Verbatim from the code quoted in the weird-edge design document. -/

/-- `Segment.is_compatible(other)`, as a function of the two shapes. -/
def is_compatible (self other : SegmentShape) : Bool :=
  -- EDGE segments are never compatible
  if self = SegmentShape.EDGE ∨ other = SegmentShape.EDGE then
    false
  -- Standard IN/OUT compatibility
  else if (self = SegmentShape.IN ∧ other = SegmentShape.OUT) ∨
      (self = SegmentShape.OUT ∧ other = SegmentShape.IN) then
    true
  -- WEIRD segments treated as potentially compatible
  else if self = SegmentShape.WEIRD ∨ other = SegmentShape.WEIRD then
    true
  else
    false

end SnapFit

namespace SnapFit

/-- C1: Segment shape classification is exactly the threshold table:
OUT iff `out_count > 5 ∧ in_count ≤ 5`, IN iff the mirror image,
EDGE iff both counts are `≤ 5`, WEIRD iff both exceed `5`. -/
theorem compute_shape_classification (xs : List ℚ) :
    (compute_shape xs = SegmentShape.OUT ↔ 5 < out_count xs ∧ in_count xs ≤ 5) ∧
    (compute_shape xs = SegmentShape.IN ↔ 5 < in_count xs ∧ out_count xs ≤ 5) ∧
    (compute_shape xs = SegmentShape.EDGE ↔ out_count xs ≤ 5 ∧ in_count xs ≤ 5) ∧
    (compute_shape xs = SegmentShape.WEIRD ↔ 5 < out_count xs ∧ 5 < in_count xs) := by
  unfold compute_shape
  by_cases ho : 5 < out_count xs <;> by_cases hi : 5 < in_count xs <;>
    simp [ho, hi, Nat.le_of_not_lt, Nat.not_le.mpr, Nat.not_lt.mp]

/-! ## Segment matcher (`SegmentMatcher` / the match-contours notebook)

The notebook fits `cv2.estimateAffinePartial2D` from `segment1.coords`
(the endpoint pair) to `segment2.swap_coords` (the swapped endpoint
pair), applies the resulting 2×3 affine matrix to every point of
segment 1, and accumulates `tot_dist` over `i1 ∈ [0, s1_len)` with
`i2 = floor(rate * i1)` where `rate = s1_len / s2_len`.  The numeric
least-squares estimator and the floating-point square root are taken
as parameters (`estimate`, `sq`); everything else is embedded. -/

/-- A 2D point, modelling a contour coordinate. -/
abbrev Point := ℚ × ℚ

/-- A 2×3 affine transformation matrix `[[a, b, tx], [c, d, ty]]`,
as returned by `cv2.estimateAffinePartial2D`. -/
structure AffineMat where
  a : ℚ
  b : ℚ
  tx : ℚ
  c : ℚ
  d : ℚ
  ty : ℚ
  deriving DecidableEq, Repr

/-- Apply an affine matrix to one point (`cv2.transform` on a single
coordinate). -/
def transform_point (m : AffineMat) (p : Point) : Point :=
  (m.a * p.1 + m.b * p.2 + m.tx, m.c * p.1 + m.d * p.2 + m.ty)

/-- `transform_contour`: apply a 2D affine transformation to every
point of a contour. -/
def transform_contour (m : AffineMat) (pts : List Point) : List Point :=
  pts.map (transform_point m)

/-- A `Segment`: the ordered point run of one piece edge plus its
classified shape. -/
structure Segment where
  points : List Point
  shape : SegmentShape

/-- `Segment.coords`: the `(start, end)` endpoint pair. -/
def Segment.coords (s : Segment) : Point × Point :=
  (s.points.headI, s.points.getLastI)

/-- `Segment.swap_coords`: the `(end, start)` endpoint pair, used as
the target when matching against an edge traversed the other way. -/
def Segment.swap_coords (s : Segment) : Point × Point :=
  (s.points.getLastI, s.points.headI)

/-- Euclidean distance `np.linalg.norm(p1 - p2)`, with the square
root abstracted as `sq`. -/
def dist_pt (sq : ℚ → ℚ) (p q : Point) : ℚ :=
  sq ((p.1 - q.1) ^ 2 + (p.2 - q.2) ^ 2)

/-- The `tot_dist` accumulation loop: for each index `i1` of the list,
look up `s2pts[floor(rate * i1)]` (failing, like the numpy indexing,
when the index is out of range) and add the distance to the
transformed point `s1t[i1]`. -/
def accum_dist (sq : ℚ → ℚ) (s1t s2pts : List Point) (rate : ℚ) :
    List ℕ → Option ℚ
  | [] => some 0
  | i1 :: rest =>
    match s2pts[Int.toNat ⌊rate * (i1 : ℚ)⌋]? with
    | none => none
    | some p2 =>
      (accum_dist sq s1t s2pts rate rest).map
        (fun t => dist_pt sq (s1t.getD i1 (0, 0)) p2 + t)

/-- `SegmentMatcher.match_shape`: fit the affine transform from
`s1.coords` to `s2.swap_coords`, transform segment 1, and accumulate
the point-to-point distances with `i2 = floor(rate * i1)`.
`none` models the Python exceptions (division by zero when segment 2
is empty, numpy IndexError when an index overruns segment 2). -/
def match_shape (estimate : Point × Point → Point × Point → AffineMat)
    (sq : ℚ → ℚ) (s1 s2 : Segment) : Option ℚ :=
  let m := estimate s1.coords s2.swap_coords
  let s1_transformed := transform_contour m s1.points
  let s1_len := s1_transformed.length
  let s2_len := s2.points.length
  if s2_len = 0 then none
  else
    accum_dist sq s1_transformed s2.points
      ((s1_len : ℚ) / (s2_len : ℚ)) (List.range s1_len)

/-- The similarity score as the SPEC's numbered steps describe it:
the plain sum, over every `i1 ∈ [0, s1_len)`, of the Euclidean
distance between `s1_transformed[i1]` and
`segment2.points[floor(rate * i1)]`, unnormalized. -/
def spec_tot_dist (estimate : Point × Point → Point × Point → AffineMat)
    (sq : ℚ → ℚ) (s1 s2 : Segment) : ℚ :=
  let m := estimate s1.coords s2.swap_coords
  let s1t := transform_contour m s1.points
  let rate : ℚ := (s1.points.length : ℚ) / (s2.points.length : ℚ)
  ((List.range s1.points.length).map (fun i1 =>
    dist_pt sq (s1t.getD i1 (0, 0))
      (s2.points.getD (Int.toNat ⌊rate * (i1 : ℚ)⌋) (0, 0)))).sum

/-- `SegmentMatcher.compute_similarity` as the repository's
weird-edge design document records it: the matcher consults
`is_compatible` as a gate and returns the sentinel `1e6` for
incompatible shape pairs; only compatible pairs get the geometric
score.  Modelled from the spec: `segment_matcher.py` itself is not in
the repository snapshot; the gate and the `1e6` sentinel are taken
from the design document's description of that file. -/
def compute_similarity (estimate : Point × Point → Point × Point → AffineMat)
    (sq : ℚ → ℚ) (s1 s2 : Segment) : Option ℚ :=
  if is_compatible s1.shape s2.shape then match_shape estimate sq s1 s2
  else some 1000000

/-- In-bounds accumulation computes exactly the distance sum. -/
theorem accum_dist_eq_sum (sq : ℚ → ℚ) (s1t s2pts : List Point) (rate : ℚ)
    (idxs : List ℕ)
    (h : ∀ i ∈ idxs, Int.toNat ⌊rate * (i : ℚ)⌋ < s2pts.length) :
    accum_dist sq s1t s2pts rate idxs =
      some ((idxs.map (fun i1 =>
        dist_pt sq (s1t.getD i1 (0, 0))
          (s2pts.getD (Int.toNat ⌊rate * (i1 : ℚ)⌋) (0, 0)))).sum) := by
  induction idxs with
  | nil => rfl
  | cons i rest ih =>
    have hi : Int.toNat ⌊rate * (i : ℚ)⌋ < s2pts.length :=
      h i (List.mem_cons_self i rest)
    have hrest : ∀ j ∈ rest, Int.toNat ⌊rate * (j : ℚ)⌋ < s2pts.length :=
      fun j hj => h j (List.mem_cons_of_mem i hj)
    rw [accum_dist, List.getElem?_eq_getElem hi, ih hrest]
    simp [List.getD, List.getElem?_eq_getElem hi, add_comm]

/-- C2: the compatibility gate returns `true` exactly when neither
shape is EDGE and the pair is IN/OUT, OUT/IN, or involves WEIRD;
in particular EDGE pairs with nothing, IN/IN and OUT/OUT are
incompatible, and WEIRD is compatible with IN, OUT and WEIRD. -/
theorem is_compatible_table (a b : SegmentShape) :
    is_compatible a b = true ↔
      a ≠ SegmentShape.EDGE ∧ b ≠ SegmentShape.EDGE ∧
        ((a = SegmentShape.IN ∧ b = SegmentShape.OUT) ∨
         (a = SegmentShape.OUT ∧ b = SegmentShape.IN) ∨
         a = SegmentShape.WEIRD ∨ b = SegmentShape.WEIRD) := by
  cases a <;> cases b <;> simp [is_compatible]

/-- C3: whenever segment 2 is nonempty and every index
`floor(rate * i1)` lands inside segment 2, the segment matcher
returns exactly the unnormalized sum `tot_dist` of Euclidean
distances between the transformed points of segment 1 (aligned from
`s1.coords` onto `s2.swap_coords`) and the rate-resampled points of
segment 2. -/
theorem match_shape_eq_spec_tot_dist
    (estimate : Point × Point → Point × Point → AffineMat)
    (sq : ℚ → ℚ) (s1 s2 : Segment)
    (h2 : 0 < s2.points.length)
    (hidx : ∀ i1 < s1.points.length,
      Int.toNat ⌊((s1.points.length : ℚ) / (s2.points.length : ℚ)) * (i1 : ℚ)⌋ <
        s2.points.length) :
    match_shape estimate sq s1 s2 = some (spec_tot_dist estimate sq s1 s2) := by
  unfold match_shape spec_tot_dist
  have hlen : (transform_contour (estimate s1.coords s2.swap_coords) s1.points).length =
      s1.points.length := by
    simp [transform_contour]
  rw [if_neg (by omega), hlen]
  exact accum_dist_eq_sum sq _ s2.points _ _
    (fun i hi => hidx i (List.mem_range.mp hi))

/-- Identity estimator used for concrete evaluations. -/
def id_estimate : Point × Point → Point × Point → AffineMat :=
  fun _ _ => ⟨1, 0, 0, 0, 1, 0⟩

/-- A two-point segment on the x-axis with an `IN` shape. -/
def seg_in : Segment := ⟨[(0, 0), (1, 0)], SegmentShape.IN⟩

/-- A two-point segment on the x-axis with an `OUT` shape. -/
def seg_out : Segment := ⟨[(0, 0), (1, 0)], SegmentShape.OUT⟩

/-- A two-point segment on the x-axis with an `EDGE` shape. -/
def seg_edge : Segment := ⟨[(0, 0), (1, 0)], SegmentShape.EDGE⟩

/-- Witness for C3 at concrete two-point segments. -/
theorem match_shape_eq_spec_tot_dist_witness :
    match_shape id_estimate id seg_in seg_out =
      some (spec_tot_dist id_estimate id seg_in seg_out) :=
  match_shape_eq_spec_tot_dist id_estimate id seg_in seg_out
    (by simp [seg_out])
    (by
      simp only [seg_in, seg_out, List.length_cons, List.length_nil]
      intro i hi
      interval_cases i <;> norm_num)

/-- Counterexample for C4: for the incompatible EDGE/EDGE pair the
shipped matcher substitutes the sentinel `1e6`, instead of the
geometric distance-sum score (which is `0` for this self-pair). -/
theorem compute_similarity_sentinel_counterexample :
    compute_similarity id_estimate id seg_edge seg_edge = some 1000000 ∧
    spec_tot_dist id_estimate id seg_edge seg_edge = 0 ∧
    compute_similarity id_estimate id seg_edge seg_edge ≠
      some (spec_tot_dist id_estimate id seg_edge seg_edge) := by
  have hzero : spec_tot_dist id_estimate id seg_edge seg_edge = 0 := by
    simp only [spec_tot_dist, seg_edge, id_estimate, transform_contour,
      transform_point, dist_pt, Segment.coords, Segment.swap_coords]
    norm_num [List.range_succ, transform_point]
  have hsent : compute_similarity id_estimate id seg_edge seg_edge = some 1000000 := by
    simp [compute_similarity, is_compatible, seg_edge]
  refine ⟨hsent, hzero, ?_⟩
  rw [hsent, hzero]
  simp

/-- C4 (amended): the segment similarity is gated on compatibility:
compatible shape pairs get the geometric distance-sum score, while
incompatible pairs (any pair involving EDGE, and IN/IN or OUT/OUT)
get the sentinel `1e6` instead. -/
theorem compute_similarity_gate (estimate : Point × Point → Point × Point → AffineMat)
    (sq : ℚ → ℚ) (s1 s2 : Segment) :
    (is_compatible s1.shape s2.shape = true →
      compute_similarity estimate sq s1 s2 = match_shape estimate sq s1 s2) ∧
    (is_compatible s1.shape s2.shape = false →
      compute_similarity estimate sq s1 s2 = some 1000000) := by
  constructor <;> intro h <;> simp [compute_similarity, h]

/-- Witness for the amended C4 at a concrete compatible pair. -/
theorem compute_similarity_gate_witness :
    compute_similarity id_estimate id seg_in seg_out =
      match_shape id_estimate id seg_in seg_out :=
  (compute_similarity_gate id_estimate id seg_in seg_out).1 (by decide)

end SnapFit

namespace SnapFit

/-! ## Piece matcher cache (`PieceMatcher`)

From the PieceMatcher plan and the FastAPI scaffold's persistence
code: results live in a flat list `_results` and in a dictionary
`_lookup : dict[frozenset[SegmentId], MatchResult]`, so `(id1, id2)`
and `(id2, id1)` map to the same entry.  The Python `dict` is
modelled as an association list with insert-or-replace update; a
`frozenset` key is a `Finset`. -/

/-- `MatchResult {seg_id1, seg_id2, similarity}` (lower is better). -/
structure MatchResult where
  seg_id1 : SegmentId
  seg_id2 : SegmentId
  similarity : ℚ
  deriving DecidableEq

/-- `MatchResult.pair`: the `frozenset` of the two segment ids. -/
def MatchResult.pair (r : MatchResult) : Finset SegmentId :=
  {r.seg_id1, r.seg_id2}

/-- Python `d[k] = v`: replace the value of an existing key in place,
otherwise append the new key. -/
def dict_insert {κ ν : Type} [DecidableEq κ] (l : List (κ × ν)) (k : κ) (v : ν) :
    List (κ × ν) :=
  if l.any (fun kv => kv.1 = k) then
    l.map (fun kv => if kv.1 = k then (k, v) else kv)
  else
    l ++ [(k, v)]

/-- A fresh key is appended: inserting `k ∉ keys` extends the key list
by `[k]`. -/
theorem dict_insert_keys_new {κ ν : Type} [DecidableEq κ]
    (l : List (κ × ν)) (k : κ) (v : ν) (hk : k ∉ l.map Prod.fst) :
    (dict_insert l k v).map Prod.fst = l.map Prod.fst ++ [k] := by
  have hne : ¬l.any (fun kv => kv.1 = k) = true := by
    intro hany
    obtain ⟨kv, hmem, heq⟩ := List.any_eq_true.mp hany
    exact hk (List.mem_map.mpr ⟨kv, hmem, by simpa using heq⟩)
  simp only [dict_insert, if_neg hne, List.map_append]
  rfl

/-- `PieceMatcher`: the sorted results list and the pair-keyed
dictionary. -/
structure PieceMatcher where
  results : List MatchResult
  lookup : List (Finset SegmentId × MatchResult)

/-- A fresh matcher with an empty cache. -/
def PieceMatcher.empty : PieceMatcher := ⟨[], []⟩

/-- `match_pair(id1, id2)`: compute one `MatchResult` (its similarity
is an input here, standing for the Segment Matcher's output) and
store it in both structures. -/
def PieceMatcher.match_pair (m : PieceMatcher) (id1 id2 : SegmentId)
    (similarity : ℚ) : PieceMatcher :=
  let r : MatchResult := ⟨id1, id2, similarity⟩
  ⟨m.results ++ [r], dict_insert m.lookup r.pair r⟩

/-- `get_cached_score(seg_a, seg_b)`: look the unordered pair up in
the dictionary and return its similarity, if present. -/
def PieceMatcher.get_cached_score (m : PieceMatcher) (a b : SegmentId) :
    Option ℚ :=
  (m.lookup.find? (fun kv => kv.1 = ({a, b} : Finset SegmentId))).map
    (fun kv => kv.2.similarity)

/-- `get_matched_pair_keys()`: the keys of the pair dictionary. -/
def PieceMatcher.get_matched_pair_keys (m : PieceMatcher) :
    List (Finset SegmentId) :=
  m.lookup.map Prod.fst

/-- Run a sequence of `match_pair` calls against a fresh matcher. -/
def run_matches (ops : List (SegmentId × SegmentId × ℚ)) : PieceMatcher :=
  ops.foldl (fun m op => m.match_pair op.1 op.2.1 op.2.2) PieceMatcher.empty

/-- `dict_insert` keeps the key list duplicate-free. -/
theorem dict_insert_keys_nodup (l : List (Finset SegmentId × MatchResult))
    (k : Finset SegmentId) (v : MatchResult)
    (h : (l.map Prod.fst).Nodup) :
    ((dict_insert l k v).map Prod.fst).Nodup := by
  unfold dict_insert
  by_cases hk : l.any (fun kv => kv.1 = k)
  · rw [if_pos hk, List.map_map]
    have : (Prod.fst ∘ fun kv : Finset SegmentId × MatchResult =>
        if kv.1 = k then (k, v) else kv) = Prod.fst := by
      funext kv
      by_cases hkv : kv.1 = k <;> simp [hkv]
    rw [this]
    exact h
  · rw [if_neg hk]
    have hnotmem : k ∉ l.map Prod.fst := by
      intro hmem
      apply hk
      obtain ⟨kv, hkv, hfst⟩ := List.mem_map.mp hmem
      exact List.any_eq_true.mpr ⟨kv, hkv, by simp [hfst]⟩
    simp [List.nodup_append, h, hnotmem]

/-- Every matcher reachable by `match_pair` calls has duplicate-free
dictionary keys. -/
theorem run_matches_keys_nodup (ops : List (SegmentId × SegmentId × ℚ)) :
    ((run_matches ops).get_matched_pair_keys).Nodup := by
  suffices h : ∀ m : PieceMatcher, m.get_matched_pair_keys.Nodup →
      (ops.foldl (fun m op => m.match_pair op.1 op.2.1 op.2.2) m).get_matched_pair_keys.Nodup by
    exact h PieceMatcher.empty (by simp [PieceMatcher.empty,
      PieceMatcher.get_matched_pair_keys])
  induction ops with
  | nil => intro m hm; exact hm
  | cons op rest ih =>
    intro m hm
    exact ih _ (dict_insert_keys_nodup _ _ _ hm)

/-- C5: cache symmetry — after any sequence of `match_pair` calls,
`get_cached_score(A, B)` and `get_cached_score(B, A)` answer from the
same single cached entry, and once the pair has been scored,
`get_matched_pair_keys()` holds exactly one key for it, never two
entries for the two orderings. -/
theorem piece_matcher_cache_symmetry (ops : List (SegmentId × SegmentId × ℚ))
    (a b : SegmentId) :
    ((run_matches ops).get_cached_score a b =
      (run_matches ops).get_cached_score b a) ∧
    (({a, b} : Finset SegmentId) ∈ (run_matches ops).get_matched_pair_keys →
      ((run_matches ops).get_matched_pair_keys).count ({a, b} : Finset SegmentId) = 1) := by
  constructor
  · unfold PieceMatcher.get_cached_score
    rw [show ({a, b} : Finset SegmentId) = {b, a} from Finset.pair_comm a b]
  · intro hmem
    exact List.count_eq_one_of_mem (run_matches_keys_nodup ops) hmem

/-- Two distinct segment ids used by the cache witnesses. -/
def seg_id_a : SegmentId := ⟨⟨"sheet_00", 0⟩, EdgePos.TOP⟩

/-- A second segment id on another piece. -/
def seg_id_b : SegmentId := ⟨⟨"sheet_00", 1⟩, EdgePos.BOTTOM⟩

/-- Witness for C5: after scoring the pair once (in one order), both
orderings read the same entry and the key list holds it exactly
once. -/
theorem piece_matcher_cache_symmetry_witness :
    ((run_matches [(seg_id_a, seg_id_b, 7)]).get_cached_score seg_id_a seg_id_b =
      (run_matches [(seg_id_a, seg_id_b, 7)]).get_cached_score seg_id_b seg_id_a) ∧
    ((run_matches [(seg_id_a, seg_id_b, 7)]).get_matched_pair_keys).count
      ({seg_id_a, seg_id_b} : Finset SegmentId) = 1 :=
  ⟨(piece_matcher_cache_symmetry [(seg_id_a, seg_id_b, 7)] seg_id_a seg_id_b).1,
   (piece_matcher_cache_symmetry [(seg_id_a, seg_id_b, 7)] seg_id_a seg_id_b).2
     (by decide)⟩

end SnapFit

namespace SnapFit

/-! ## Grid & placement model (`PlacementState`)

Modelled from the spec: the grid module's source is not in the
repository snapshot (only the grid-model plan is).  Per the spec,
`PlacementState` holds `placements : GridPos → (PieceId, Orientation)`
and its exact inverse `positions : PieceId → GridPos`, kept mutually
consistent by every mutating operation; `place` overwrites any prior
occupant of the position and any prior position of the piece (so the
prior occupant's reverse entry is evicted), and `remove` clears the
occupant from both maps.  The Python dictionaries are modelled as
total functions into `Option`. -/

/-- `Orientation`: rotation by a multiple of 90°. -/
inductive Orientation
  | DEG_0
  | DEG_90
  | DEG_180
  | DEG_270
  deriving DecidableEq, Repr

/-- `GridPos {ro, co}`, 0-indexed. -/
structure GridPos where
  ro : Nat
  co : Nat
  deriving DecidableEq, Repr

/-- `PlacementState`: position → (piece, orientation) and the reverse
piece → position map. -/
structure PlacementState where
  placements : GridPos → Option (PieceId × Orientation)
  positions : PieceId → Option GridPos

/-- The empty placement state. -/
def PlacementState.empty : PlacementState :=
  ⟨fun _ => none, fun _ => none⟩

/-- `get_placement(pos)`. -/
def PlacementState.get_placement (s : PlacementState) (pos : GridPos) :
    Option (PieceId × Orientation) :=
  s.placements pos

/-- `get_position(piece_id)`. -/
def PlacementState.get_position (s : PlacementState) (pid : PieceId) :
    Option GridPos :=
  s.positions pid

/-- `place(piece_id, pos, orientation)`: assign, evicting any prior
occupant of `pos` and any prior position of `piece_id` from the
respective reverse maps so both maps stay mutually consistent. -/
def PlacementState.place (s : PlacementState) (pid : PieceId)
    (pos : GridPos) (o : Orientation) : PlacementState where
  placements := fun p =>
    if p = pos then some (pid, o)
    else if s.positions pid = some p then none
    else s.placements p
  positions := fun q =>
    if q = pid then some pos
    else if (s.placements pos).map Prod.fst = some q then none
    else s.positions q

/-- `remove(pos)`: clear the position and its occupant's reverse
entry. -/
def PlacementState.remove (s : PlacementState) (pos : GridPos) :
    PlacementState where
  placements := fun p => if p = pos then none else s.placements p
  positions := fun q =>
    if (s.placements pos).map Prod.fst = some q then none
    else s.positions q

/-- One mutating operation on a placement state. -/
inductive PlacementOp
  | place (pid : PieceId) (pos : GridPos) (o : Orientation)
  | remove (pos : GridPos)

/-- Apply one operation. -/
def PlacementState.step (s : PlacementState) : PlacementOp → PlacementState
  | PlacementOp.place pid pos o => s.place pid pos o
  | PlacementOp.remove pos => s.remove pos

/-- Run a sequence of operations from the empty state. -/
def run_placements (ops : List PlacementOp) : PlacementState :=
  ops.foldl PlacementState.step PlacementState.empty

/-- The bijection invariant: the two maps are exact inverses over the
placed subset. -/
def PlacementInv (s : PlacementState) : Prop :=
  (∀ pos pid o, s.placements pos = some (pid, o) → s.positions pid = some pos) ∧
  (∀ pid pos, s.positions pid = some pos → ∃ o, s.placements pos = some (pid, o))

/-- `place` preserves the bijection invariant. -/
theorem placementInv_place (s : PlacementState) (pid : PieceId)
    (pos : GridPos) (o : Orientation) (h : PlacementInv s) :
    PlacementInv (s.place pid pos o) := by
  obtain ⟨hfwd, hbwd⟩ := h
  constructor
  · intro p q oq hq
    simp only [PlacementState.place] at hq ⊢
    by_cases hp : p = pos
    · subst hp
      rw [if_pos rfl] at hq
      injection hq with h1
      obtain ⟨rfl, rfl⟩ := Prod.mk.injEq .. ▸ h1
      simp
    · rw [if_neg hp] at hq
      by_cases hqp : s.positions pid = some p
      · rw [if_pos hqp] at hq
        exact absurd hq (by simp)
      · rw [if_neg hqp] at hq
        have hpos : s.positions q = some p := hfwd p q oq hq
        have hqpid : ¬q = pid := by
          rintro rfl
          exact hqp hpos
        rw [if_neg hqpid]
        have hnocc : ¬(s.placements pos).map Prod.fst = some q := by
          intro hc
          obtain ⟨⟨q2, o2⟩, hv, hfst⟩ := Option.map_eq_some'.mp hc
          cases hfst
          have := hfwd pos q2 o2 hv
          rw [this] at hpos
          injection hpos with h2
          exact hp h2.symm
        rw [if_neg hnocc]
        exact hpos
  · intro q p hq
    simp only [PlacementState.place] at hq ⊢
    by_cases hqpid : q = pid
    · subst hqpid
      rw [if_pos rfl] at hq
      injection hq with h1
      subst h1
      exact ⟨o, by rw [if_pos rfl]⟩
    · rw [if_neg hqpid] at hq
      by_cases hocc : (s.placements pos).map Prod.fst = some q
      · rw [if_pos hocc] at hq
        exact absurd hq (by simp)
      · rw [if_neg hocc] at hq
        obtain ⟨oq, hoq⟩ := hbwd q p hq
        have hppos : ¬p = pos := by
          rintro rfl
          exact hocc (by rw [hoq]; rfl)
        refine ⟨oq, ?_⟩
        rw [if_neg hppos]
        have hnp : ¬s.positions pid = some p := by
          intro hc
          obtain ⟨o2, ho2⟩ := hbwd pid p hc
          rw [hoq] at ho2
          injection ho2 with h2
          rw [Prod.mk.injEq] at h2
          exact hqpid h2.1
        rw [if_neg hnp]
        exact hoq

/-- `remove` preserves the bijection invariant. -/
theorem placementInv_remove (s : PlacementState) (pos : GridPos)
    (h : PlacementInv s) : PlacementInv (s.remove pos) := by
  obtain ⟨hfwd, hbwd⟩ := h
  constructor
  · intro p q oq hq
    simp only [PlacementState.remove] at hq ⊢
    by_cases hp : p = pos
    · rw [if_pos hp] at hq
      exact absurd hq (by simp)
    · rw [if_neg hp] at hq
      have hpos := hfwd p q oq hq
      have hnocc : ¬(s.placements pos).map Prod.fst = some q := by
        intro hc
        obtain ⟨⟨q2, o2⟩, hv, hfst⟩ := Option.map_eq_some'.mp hc
        cases hfst
        have := hfwd pos q2 o2 hv
        rw [this] at hpos
        injection hpos with h2
        exact hp h2.symm
      rw [if_neg hnocc]
      exact hpos
  · intro q p hq
    simp only [PlacementState.remove] at hq ⊢
    by_cases hocc : (s.placements pos).map Prod.fst = some q
    · rw [if_pos hocc] at hq
      exact absurd hq (by simp)
    · rw [if_neg hocc] at hq
      obtain ⟨oq, hoq⟩ := hbwd q p hq
      have hppos : ¬p = pos := by
        rintro rfl
        exact hocc (by rw [hoq]; rfl)
      exact ⟨oq, by rw [if_neg hppos]; exact hoq⟩

/-- C6: after any sequence of `place`/`remove` operations the two
maps are exact inverses over the placed subset (for every placed
piece `P` at `pos` with orientation `o`, `get_position P = pos` iff
`get_placement pos = (P, o)`); and removing a filled position erases
its occupant from both maps.  Positions and pieces are map keys, so
each holds at most one entry by construction. -/
theorem placement_state_bijection (ops : List PlacementOp) :
    PlacementInv (run_placements ops) ∧
    (∀ pos pid o,
      (run_placements ops).get_placement pos = some (pid, o) →
      (run_placements (ops ++ [PlacementOp.remove pos])).get_placement pos = none ∧
      (run_placements (ops ++ [PlacementOp.remove pos])).get_position pid = none) := by
  have hinv : ∀ ops : List PlacementOp, PlacementInv (run_placements ops) := by
    intro ops
    rw [run_placements]
    have : ∀ m : PlacementState, PlacementInv m →
        PlacementInv (ops.foldl PlacementState.step m) := by
      induction ops with
      | nil => intro m hm; exact hm
      | cons op rest ih =>
        intro m hm
        apply ih
        cases op with
        | place pid pos o => exact placementInv_place m pid pos o hm
        | remove pos => exact placementInv_remove m pos hm
    exact this PlacementState.empty ⟨by intro pos pid o h; simp [PlacementState.empty] at h,
      by intro pid pos h; simp [PlacementState.empty] at h⟩
  refine ⟨hinv ops, ?_⟩
  intro pos pid o hocc
  rw [run_placements, List.foldl_append]
  simp only [List.foldl_cons, List.foldl_nil, PlacementState.step]
  rw [← run_placements]
  constructor
  · simp [PlacementState.remove, PlacementState.get_placement]
  · rw [PlacementState.get_placement] at hocc
    simp [PlacementState.remove, PlacementState.get_position, hocc]

/-- Witness for C6: place one piece, remove its position, and observe
it gone from both maps. -/
theorem placement_state_bijection_witness :
    (run_placements ([PlacementOp.place ⟨"sheet_00", 0⟩ ⟨0, 0⟩ Orientation.DEG_0] ++
        [PlacementOp.remove ⟨0, 0⟩])).get_placement ⟨0, 0⟩ = none ∧
    (run_placements ([PlacementOp.place ⟨"sheet_00", 0⟩ ⟨0, 0⟩ Orientation.DEG_0] ++
        [PlacementOp.remove ⟨0, 0⟩])).get_position ⟨"sheet_00", 0⟩ = none :=
  (placement_state_bijection [PlacementOp.place ⟨"sheet_00", 0⟩ ⟨0, 0⟩ Orientation.DEG_0]).2
    ⟨0, 0⟩ ⟨"sheet_00", 0⟩ Orientation.DEG_0 (by decide)

end SnapFit

namespace SnapFit

/-! ## HTTP service layer (FastAPI routers)

From the router code in the FastAPI scaffold: the list endpoints read
the persisted cache file and return `[]` when it is absent; the
point-lookup endpoint raises a 404 `HTTPException`; the ingestion
endpoint builds a `SheetManager` over the directory's `*.png` files,
persists the records and reports the counts.  A request-level cache
state is an `Option` (the file is present or absent); an
`HTTPException` is the `ApiError` sum. -/

/-- `SheetRecord`: serializable snapshot of one sheet. -/
structure SheetRecord where
  sheet_id : String
  deriving DecidableEq, Repr

/-- `PieceRecord`: serializable snapshot of one piece, carrying its
rendered `piece_id` string. -/
structure PieceRecord where
  piece_id : String
  deriving DecidableEq, Repr

/-- The content of `metadata.json`: `{"sheets": [...], "pieces": [...]}`. -/
structure Metadata where
  sheets : List SheetRecord
  pieces : List PieceRecord
  deriving DecidableEq, Repr

/-- `HTTPException`s raised by the routers. -/
inductive ApiError
  | notFound (detail : String)
  | badRequest (detail : String)
  deriving DecidableEq, Repr

/-- `SheetManager`, as far as ingestion needs it.  Modelled from the
spec: `sheet_manager.py` is not in the repository snapshot;
`sheets` is the dict from `sheet_id` (the image's load path) to that
sheet's pieces, and `add_sheet` registers one processed image under
its path.  Piece detection itself stays an abstract parameter. -/
structure SheetManager where
  sheets : List (String × List PieceRecord)

/-- A fresh manager. -/
def SheetManager.emptyManager : SheetManager := ⟨[]⟩

/-- `add_sheet(img_file, ...)`: process one image and register the
sheet under its path. -/
def SheetManager.add_sheet (m : SheetManager) (img_file : String)
    (detect : String → List PieceRecord) : SheetManager :=
  ⟨dict_insert m.sheets img_file (detect img_file)⟩

/-- `to_records()`: one `SheetRecord` per sheet and the concatenation
of every sheet's `PieceRecord`s. -/
def SheetManager.to_records (m : SheetManager) : Metadata :=
  ⟨m.sheets.map (fun kv => ⟨kv.1⟩), (m.sheets.map (fun kv => kv.2)).flatten⟩

/-- The body of the ingestion response. -/
structure IngestResponse where
  sheets_ingested : Nat
  pieces_detected : Nat
  deriving DecidableEq, Repr

/-- `POST /api/v1/pieces/ingest`: add every `*.png` of the directory
(given here as its sorted file list), persist `to_records()` as
`metadata.json`, and report `sheets_ingested`/`pieces_detected`.
Returns the response together with the persisted metadata. -/
def ingest_sheets (png_files : List String)
    (detect : String → List PieceRecord) : IngestResponse × Metadata :=
  let manager := png_files.foldl (fun m f => m.add_sheet f detect)
    SheetManager.emptyManager
  let records := manager.to_records
  (⟨records.sheets.length, records.pieces.length⟩, records)

/-- `GET /api/v1/pieces/`: all piece records, `[]` when
`metadata.json` is absent. -/
def list_pieces (cache : Option Metadata) : Except ApiError (List PieceRecord) :=
  match cache with
  | none => Except.ok []
  | some d => Except.ok d.pieces

/-- `GET /api/v1/pieces/sheets`: all sheet records, `[]` when
`metadata.json` is absent. -/
def list_sheets (cache : Option Metadata) : Except ApiError (List SheetRecord) :=
  match cache with
  | none => Except.ok []
  | some d => Except.ok d.sheets

/-- `GET /api/v1/pieces/{piece_id}`: 404 when the metadata file is
absent, 404 when no record carries the id, the record otherwise. -/
def get_piece (cache : Option Metadata) (piece_id : String) :
    Except ApiError PieceRecord :=
  match cache with
  | none => Except.error (ApiError.notFound "No metadata found")
  | some d =>
    match d.pieces.find? (fun p => p.piece_id = piece_id) with
    | some p => Except.ok p
    | none => Except.error (ApiError.notFound ("Piece " ++ piece_id ++ " not found"))

/-- The piece records a cache state exposes. -/
def cache_pieces : Option Metadata → List PieceRecord
  | none => []
  | some d => d.pieces

/-- Does the endpoint answer with a NotFound client error (carrying
its human-readable detail message)? -/
def is_not_found : Except ApiError PieceRecord → Bool
  | Except.error (ApiError.notFound _) => true
  | _ => false

/-- The pure body of `GET /api/v1/puzzle/matches`: optionally filter
by `similarity >= min_similarity`, sort ascending by similarity
(Python's stable sort), truncate to `limit`. -/
def list_matches_results (results : List MatchResult) (limit : Nat)
    (min_similarity : Option ℚ) : List MatchResult :=
  let results : List MatchResult :=
    match min_similarity with
    | some m => results.filter (fun r => decide (m ≤ r.similarity))
    | none => results
  (results.mergeSort (fun a b => decide (a.similarity ≤ b.similarity))).take limit

/-- `GET /api/v1/puzzle/matches`: `[]` when `matches.json` is absent,
the filtered/sorted/truncated results otherwise. -/
def list_matches (cache : Option (List MatchResult)) (limit : Nat)
    (min_similarity : Option ℚ) : Except ApiError (List MatchResult) :=
  match cache with
  | none => Except.ok []
  | some results => Except.ok (list_matches_results results limit min_similarity)

/-- Folding `add_sheet` over fresh file names appends their keys. -/
theorem foldl_add_sheet_keys (detect : String → List PieceRecord) :
    ∀ (files : List String) (m : SheetManager),
      (m.sheets.map Prod.fst ++ files).Nodup →
      ((files.foldl (fun m f => m.add_sheet f detect) m).sheets.map Prod.fst) =
        m.sheets.map Prod.fst ++ files := by
  intro files
  induction files with
  | nil => intro m _; simp
  | cons f rest ih =>
    intro m h
    have hparts := List.nodup_append.mp h
    have hk : f ∉ m.sheets.map Prod.fst := by
      intro hmem
      exact hparts.2.2 hmem (List.mem_cons_self f rest)
    have hkeys : ((m.add_sheet f detect).sheets.map Prod.fst) =
        m.sheets.map Prod.fst ++ [f] :=
      dict_insert_keys_new m.sheets f (detect f) hk
    have hnd : (((m.add_sheet f detect).sheets.map Prod.fst) ++ rest).Nodup := by
      rw [hkeys, List.append_assoc]
      simpa using h
    simp only [List.foldl_cons]
    rw [ih (m.add_sheet f detect) hnd, hkeys, List.append_assoc]
    rfl

/-- C7: ingesting a directory of `N` (distinct) sheet images reports
`sheets_ingested = N` and a nonnegative `pieces_detected`, and a
subsequent `GET /api/v1/pieces/sheets` over the persisted metadata
returns exactly `N` sheet records. -/
theorem ingest_sheet_counts (png_files : List String)
    (detect : String → List PieceRecord) (hnd : png_files.Nodup) :
    (ingest_sheets png_files detect).1.sheets_ingested = png_files.length ∧
    0 ≤ (ingest_sheets png_files detect).1.pieces_detected ∧
    list_sheets (some (ingest_sheets png_files detect).2) =
      Except.ok (ingest_sheets png_files detect).2.sheets ∧
    (ingest_sheets png_files detect).2.sheets.length = png_files.length := by
  have hkeys := foldl_add_sheet_keys detect png_files SheetManager.emptyManager
    (by simpa [SheetManager.emptyManager] using hnd)
  have hlen : (png_files.foldl (fun m f => m.add_sheet f detect)
      SheetManager.emptyManager).sheets.length = png_files.length := by
    have := congrArg List.length hkeys
    simpa [SheetManager.emptyManager] using this
  refine ⟨?_, Nat.zero_le _, rfl, ?_⟩
  · simp [ingest_sheets, SheetManager.to_records, hlen]
  · simp [ingest_sheets, SheetManager.to_records, hlen]

/-- Witness for C7 on a two-image directory. -/
theorem ingest_sheet_counts_witness :
    (ingest_sheets ["back_03.png", "back_04.png"]
      (fun f => [⟨f ++ ":0"⟩])).1.sheets_ingested = 2 ∧
    (ingest_sheets ["back_03.png", "back_04.png"]
      (fun f => [⟨f ++ ":0"⟩])).2.sheets.length = 2 := by
  have h := ingest_sheet_counts ["back_03.png", "back_04.png"]
    (fun f => [⟨f ++ ":0"⟩]) (by decide)
  exact ⟨h.1, h.2.2.2⟩

/-- C8: list endpoints over an absent cache answer an empty
collection with a success status; a point lookup whose id is absent
from the loaded cache (or whose metadata file is absent) answers a
NotFound client error, never an empty success body. -/
theorem missing_cache_semantics (limit : Nat) (msim : Option ℚ)
    (cache : Option Metadata) (piece_id : String) :
    list_pieces none = Except.ok [] ∧
    list_sheets none = Except.ok [] ∧
    list_matches none limit msim = Except.ok [] ∧
    ((∀ p ∈ cache_pieces cache, ¬p.piece_id = piece_id) →
      is_not_found (get_piece cache piece_id) = true) := by
  refine ⟨rfl, rfl, rfl, ?_⟩
  intro habsent
  cases cache with
  | none => rfl
  | some d =>
    have hfind : d.pieces.find? (fun p => p.piece_id = piece_id) = none := by
      rw [List.find?_eq_none]
      intro p hp
      simpa using habsent p hp
    simp [get_piece, hfind, is_not_found]

/-- Witness for C8: a loaded cache without the requested id answers
NotFound. -/
theorem missing_cache_semantics_witness :
    is_not_found (get_piece (some ⟨[⟨"s"⟩], [⟨"s:0"⟩]⟩) "s:1") = true :=
  (missing_cache_semantics 0 none (some ⟨[⟨"s"⟩], [⟨"s:0"⟩]⟩) "s:1").2.2.2
    (by decide)

/-- C10: with `min_similarity = m`, the matches endpoint keeps exactly
the cached results with `similarity ≥ m` (so the best — lowest —
similarities below `m` are excluded), sorted ascending by similarity
and truncated to the first `limit` entries. -/
theorem list_matches_min_similarity (results : List MatchResult)
    (limit : Nat) (m : ℚ) :
    list_matches (some results) limit (some m) =
      Except.ok (list_matches_results results limit (some m)) ∧
    (∀ r ∈ list_matches_results results limit (some m), m ≤ r.similarity) ∧
    (∀ r ∈ results, r.similarity < m →
      r ∉ list_matches_results results limit (some m)) ∧
    (list_matches_results results limit (some m)).Sorted
      (fun a b => a.similarity ≤ b.similarity) ∧
    (list_matches_results results limit (some m)).length =
      min limit (results.filter (fun r => decide (m ≤ r.similarity))).length ∧
    ((results.filter (fun r => decide (m ≤ r.similarity))).length ≤ limit →
      (list_matches_results results limit (some m)).Perm
        (results.filter (fun r => decide (m ≤ r.similarity)))) := by
  set f : MatchResult → Bool := fun r => decide (m ≤ r.similarity) with hf
  set le : MatchResult → MatchResult → Bool :=
    fun a b => decide (a.similarity ≤ b.similarity) with hle
  have hperm : ((results.filter f).mergeSort le).Perm (results.filter f) :=
    List.mergeSort_perm (results.filter f) le
  have hmem_out : ∀ r ∈ list_matches_results results limit (some m),
      r ∈ results.filter f := by
    intro r hr
    have : r ∈ (results.filter f).mergeSort le :=
      List.mem_of_mem_take hr
    exact hperm.mem_iff.mp this
  refine ⟨rfl, ?_, ?_, ?_, ?_, ?_⟩
  · intro r hr
    have := List.of_mem_filter (hmem_out r hr)
    simpa [hf] using this
  · intro r _ hlt hmem
    have := List.of_mem_filter (hmem_out r hmem)
    rw [hf] at this
    exact absurd (of_decide_eq_true this) (not_le.mpr hlt)
  · have hsorted : ((results.filter f).mergeSort le).Pairwise
        (fun a b => le a b = true) := by
      apply List.sorted_mergeSort
      · intro a b c hab hbc
        rw [hle] at hab hbc ⊢
        exact decide_eq_true (le_trans (of_decide_eq_true hab) (of_decide_eq_true hbc))
      · intro a b
        rw [hle]
        by_cases h : a.similarity ≤ b.similarity
        · simp [h]
        · simp [h, le_of_not_le h]
    have htake : (list_matches_results results limit (some m)).Pairwise
        (fun a b => le a b = true) :=
      hsorted.sublist (List.take_sublist limit _)
    exact htake.imp (fun h => by rw [hle] at h; exact of_decide_eq_true h)
  · simp [list_matches_results, List.length_take, List.length_mergeSort]
  · intro hle_len
    have : ((results.filter f).mergeSort le).length ≤ limit := by
      rwa [List.length_mergeSort]
    rw [list_matches_results]
    simp only [List.take_of_length_le this]
    exact hperm

/-- Witness for C10: three cached results, threshold `10`, limit
large enough to keep both survivors. -/
theorem list_matches_min_similarity_witness :
    (list_matches_results
      [⟨seg_id_a, seg_id_b, 25⟩, ⟨seg_id_a, seg_id_b, 3⟩, ⟨seg_id_a, seg_id_b, 12⟩]
      100 (some 10)).Perm
      ([⟨seg_id_a, seg_id_b, 25⟩, ⟨seg_id_a, seg_id_b, 3⟩,
        ⟨seg_id_a, seg_id_b, 12⟩].filter
        (fun r => decide ((10 : ℚ) ≤ r.similarity))) :=
  (list_matches_min_similarity
    [⟨seg_id_a, seg_id_b, 25⟩, ⟨seg_id_a, seg_id_b, 3⟩, ⟨seg_id_a, seg_id_b, 12⟩]
    100 10).2.2.2.2.2
    (by norm_num [List.filter])

end SnapFit

namespace SnapFit

/-! ## Synthetic puzzle labels (`LLNN` scheme)

Modelled from the spec: the puzzle-generator source is not in the
repository snapshot (only its plan, with the label format table, is).
Column letters are the fixed-width run of the spreadsheet-like
bijective base-26 sequence (`A..Z, AA..AZ, BA..`), with the letter
count auto-sized to `tiles_x` (so a 30-wide grid labels its columns
`AA..BD`); row numbers are zero-padded to the digit count auto-sized
to `tiles_y`. -/

/-- Fuel-driven helper for `letters_width` (structural recursion so
concrete labels evaluate). -/
def letters_width_aux : Nat → Nat → Nat
  | 0, _ => 1
  | fuel + 1, n => if n ≤ 26 then 1 else letters_width_aux fuel ((n + 25) / 26) + 1

/-- Number of column letters needed for `tiles_x` columns: the least
`w ≥ 1` with `tiles_x ≤ 26 ^ w`. -/
def letters_width (tiles_x : Nat) : Nat :=
  letters_width_aux tiles_x tiles_x

/-- Fuel-driven helper for `digits_width`. -/
def digits_width_aux : Nat → Nat → Nat
  | 0, _ => 1
  | fuel + 1, n => if n < 10 then 1 else digits_width_aux fuel (n / 10) + 1

/-- Number of row digits needed for `tiles_y` rows (the decimal width
of `tiles_y`). -/
def digits_width (tiles_y : Nat) : Nat :=
  digits_width_aux tiles_y tiles_y

/-- The `w`-letter column string for 0-based value `n`: fixed-width
base-26 with digits `A..Z`, most significant first. -/
def col_letters_aux : Nat → Nat → List Char
  | 0, _ => []
  | w + 1, n => col_letters_aux w (n / 26) ++ [Char.ofNat (65 + n % 26)]

/-- The column part of a label (`col` is 1-based). -/
def col_letters (w col : Nat) : String :=
  String.mk (col_letters_aux w (col - 1))

/-- The row part of a label (`row` is 1-based), zero-padded to `d`
digits. -/
def row_digits (d row : Nat) : String :=
  String.mk (List.replicate (d - (Nat.repr row).length) '0') ++ Nat.repr row

/-- One piece label under the `LLNN` scheme. -/
def piece_label (tiles_x tiles_y col row : Nat) : String :=
  col_letters (letters_width tiles_x) col ++
    row_digits (digits_width tiles_y) row

/-- Every label of a `tiles_x × tiles_y` puzzle, column by column
(`A1, A2, ..., E5` ordering). -/
def puzzle_labels (tiles_x tiles_y : Nat) : List String :=
  ((List.range tiles_x).map (fun ci =>
    (List.range tiles_y).map (fun ri =>
      piece_label tiles_x tiles_y (ci + 1) (ri + 1)))).flatten

/-- C9: the worked examples of the `LLNN` label scheme — a 5×5 grid
labels `A1..E5`, a 10×10 grid labels `A01..J10`, and a 30×30 grid
uses two-letter columns `AA01..BD30` (every label being 2 letters +
2 digits). -/
theorem puzzle_label_examples :
    puzzle_labels 5 5 =
      ["A1", "A2", "A3", "A4", "A5",
       "B1", "B2", "B3", "B4", "B5",
       "C1", "C2", "C3", "C4", "C5",
       "D1", "D2", "D3", "D4", "D5",
       "E1", "E2", "E3", "E4", "E5"] ∧
    (puzzle_labels 10 10).length = 100 ∧
    (puzzle_labels 10 10).head? = some "A01" ∧
    (puzzle_labels 10 10).getLast? = some "J10" ∧
    (puzzle_labels 30 30).length = 900 ∧
    (puzzle_labels 30 30).head? = some "AA01" ∧
    (puzzle_labels 30 30).getLast? = some "BD30" ∧
    (puzzle_labels 30 30).all (fun s => s.length == 4) = true := by
  set_option maxRecDepth 4096 in
  refine ⟨?_, ?_, ?_, ?_, ?_, ?_, ?_, ?_⟩ <;> decide

end SnapFit
